import Mathlib

/-!
Verification of the colorific palette-extraction pipeline (`colorific.py`)
against its specification.

Modelling conventions:
* A `RawColor` is a triple of natural numbers (Python int 3-tuples).
* Python floats are modelled by exact rationals (`ℚ`); every float produced
  by the pipeline is a ratio of small integers, so `ℚ` is the exact
  idealisation of the arithmetic (division such as `n / float(n_pixels)`
  becomes exact rational division).
* Python `dict` / `Counter` values are modelled as association lists in
  insertion order; Python 2 iteration order over a dict is hash-based and
  unspecified, insertion order is the deterministic choice used here.
* Python exceptions (failed tuple unpacking, `KeyError`, indexing an empty
  list) are modelled by `Option`, with `none` for the raised exception.
* The perceptual `distance` function delegates to the external `colormath`
  library (floating-point CMC delta-E); it is kept abstract as a parameter
  `d : RawColor → RawColor → ℚ` wherever the surrounding logic is modelled.
-/

abbrev RawColor := ℕ × ℕ × ℕ

def WHITE : RawColor := (255, 255, 255)

def BLACK : RawColor := (0, 0, 0)

structure Color where
  value : RawColor
  prominence : ℚ
  deriving DecidableEq, Repr

structure Palette where
  colors : List Color
  bgcolor : Option Color
  deriving DecidableEq, Repr

/-- `N_QUANTIZED = 200` -/
def N_QUANTIZED : ℕ := 200

/-- `MIN_DISTANCE = 10.0` -/
def MIN_DISTANCE : ℚ := 10

/-- `MIN_PROMINENCE = 0.01` -/
def MIN_PROMINENCE : ℚ := 1 / 100

/-- `MIN_SATURATION = 0.05` -/
def MIN_SATURATION : ℚ := 1 / 20

/-- `MAX_COLORS = 5` -/
def MAX_COLORS : ℕ := 5

/-- `BACKGROUND_PROMINENCE = 0.4` -/
def BACKGROUND_PROMINENCE : ℚ := 2 / 5

/-- Hex digits of `n`, most significant first (`%x` with no padding). -/
def natHexDigits (n : ℕ) : List Char :=
  Nat.toDigits 16 n

/-- `'%.02x' % n`: hex of `n`, left-padded with `'0'` to width at least 2. -/
def fmt02x (n : ℕ) : String :=
  let ds := natHexDigits n
  ⟨List.replicate (2 - ds.length) '0' ++ ds⟩

/-- `rgb_to_hex`: `'%.02x%.02x%.02x' % color`. -/
def rgb_to_hex (color : RawColor) : String :=
  fmt02x color.1 ++ fmt02x color.2.1 ++ fmt02x color.2.2

/-- Value of one hex digit as accepted by Python `int(s, 16)`
(both lowercase and uppercase letters). -/
def hexVal (c : Char) : Option ℕ :=
  if '0' ≤ c ∧ c ≤ '9' then some (c.toNat - 48)
  else if 'a' ≤ c ∧ c ≤ 'f' then some (c.toNat - 87)
  else if 'A' ≤ c ∧ c ≤ 'F' then some (c.toNat - 55)
  else none

/-- Python `int(s, 16)` on a two-character slice (hex digits only; the
source would also accept surrounding whitespace or a sign, which never
arises from well-formed `#rrggbb` input). -/
def parseHexPair (a b : Char) : Option ℕ := do
  let va ← hexVal a
  let vb ← hexVal b
  pure (16 * va + vb)

/-- `hex_to_rgb`: asserts the string starts with `'#'` and has length 7,
then parses the three 2-digit hex slices.  A failed assertion or a
non-hex character (Python `AssertionError` / `ValueError`) is `none`. -/
def hex_to_rgb (color : String) : Option RawColor :=
  match color.data with
  | ['#', a, b, c, d, e, f] => do
    let r ← parseHexPair a b
    let g ← parseHexPair c d
    let bl ← parseHexPair e f
    pure (r, g, bl)
  | _ => none

/-- Parse a 2-character hex slice given as a raw character list (used to
state the byte-level round-trip fact). -/
def parse2 (l : List Char) : Option ℕ :=
  match l with
  | [a, b] => parseHexPair a b
  | _ => none

/-- `norm_color`: scale each channel into `[0,1]`. -/
def norm_color (c : RawColor) : ℚ × ℚ × ℚ :=
  ((c.1 : ℚ) / 255, (c.2.1 : ℚ) / 255, (c.2.2 : ℚ) / 255)

/-- The saturation channel of `colorsys.rgb_to_hsv`: `0` when all channels
are equal, otherwise `(maxc - minc) / maxc`. -/
def hsvSaturation (r g b : ℚ) : ℚ :=
  let maxc := max r (max g b)
  let minc := min r (min g b)
  if minc = maxc then 0 else (maxc - minc) / maxc

/-- `meets_min_saturation`: the HSV saturation of the color's value is
strictly above the threshold. -/
def meets_min_saturation (c : Color) (threshold : ℚ) : Bool :=
  let n := norm_color c.value
  decide (threshold < hsvSaturation n.1 n.2.1 n.2.2)

/-- Python `<` on two int 3-tuples (lexicographic). -/
def tupLt (a b : RawColor) : Bool :=
  a.1 < b.1 ∨ (a.1 = b.1 ∧ (a.2.1 < b.2.1 ∨ (a.2.1 = b.2.1 ∧ a.2.2 < b.2.2)))

/-- Python `<` on the pairs `(distance, alt)` fed to `min`: compare the
distances first, break ties by the color tuple. -/
def pairLt (p q : ℚ × RawColor) : Bool :=
  p.1 < q.1 ∨ (p.1 = q.1 ∧ tupLt p.2 q.2)

/-- One step of Python `min`: keep the current minimum unless the next
element is strictly smaller. -/
def pyMinStep (m x : ℚ × RawColor) : ℚ × RawColor :=
  if pairLt x m then x else m

/-- `min((distance(c, alt), alt) for alt in aggregated)`: the least
`(distance, alt)` pair under lexicographic pair comparison.  The source
would raise on an empty canonical set; the aggregator's canonical set
always contains the two sentinels, so the `[]` branch is unreachable
there and returns a junk value. -/
def nearestCanonical (d : RawColor → RawColor → ℚ) (c : RawColor)
    (keys : List RawColor) : ℚ × RawColor :=
  match keys.map (fun k => (d c k, k)) with
  | [] => (0, (0, 0, 0))
  | p :: ps => ps.foldl pyMinStep p

/-- `aggregated[k] += n` on an association list (the key is present). -/
def addCount (l : List (RawColor × ℕ)) (c : RawColor) (n : ℕ) :
    List (RawColor × ℕ) :=
  l.map (fun p => if p.1 = c then (p.1, p.2 + n) else p)

/-- State of the aggregation loop: the `aggregated` counter and the
`to_canonical` map, both as insertion-ordered association lists. -/
abbrev AggState := List (RawColor × ℕ) × List (RawColor × RawColor)

/-- One iteration of the aggregation loop over `(c, n)`. -/
def aggregateStep (d : RawColor → RawColor → ℚ) (min_distance : ℚ)
    (st : AggState) (entry : RawColor × ℕ) : AggState :=
  if (st.1.map Prod.fst).contains entry.1 then
    (addCount st.1 entry.1 entry.2, st.2)
  else
    let dn := nearestCanonical d entry.1 (st.1.map Prod.fst)
    if dn.1 < min_distance then
      (addCount st.1 dn.2 entry.2, st.2 ++ [(entry.1, dn.2)])
    else
      (st.1 ++ [entry], st.2 ++ [(entry.1, entry.1)])

/-- Initial aggregation state: `to_canonical = {WHITE: WHITE, BLACK: BLACK}`
and `aggregated = Counter({WHITE: 0, BLACK: 0})`. -/
def aggInit : AggState :=
  ([(WHITE, 0), (BLACK, 0)], [(WHITE, WHITE), (BLACK, BLACK)])

/-- `sorted(dist.iteritems(), key=itemgetter(1), reverse=True)`: stable
sort of the histogram by descending count. -/
def sortByCountDesc (hist : List (RawColor × ℕ)) : List (RawColor × ℕ) :=
  hist.insertionSort (fun a b => b.2 ≤ a.2)

/-- The whole aggregation phase: sort the histogram by descending count and
fold the per-entry step over it. -/
def aggregate (d : RawColor → RawColor → ℚ) (min_distance : ℚ)
    (hist : List (RawColor × ℕ)) : AggState :=
  (sortByCountDesc hist).foldl (aggregateStep d min_distance) aggInit

/-- One step of Python `max` over `(value, count)` pairs keyed by count:
replace only on strictly larger count. -/
def pyMaxStep (best q : RawColor × ℕ) : RawColor × ℕ :=
  if best.2 < q.2 then q else best

/-- `Counter(samples).most_common(1)`: a sampled value of maximal
multiplicity, with its count.  Python 2 iterates the counter in
unspecified hash order; here ties between distinct equally-common values
are resolved by a fixed deterministic enumeration of the distinct values.
The `[]` branch is unreachable on the 8 border samples. -/
def mostCommon (l : List RawColor) : RawColor × ℕ :=
  match l.dedup.map (fun v => (v, l.count v)) with
  | [] => ((0, 0, 0), 0)
  | p :: ps => ps.foldl pyMaxStep p

/-- The preprocessed (already quantized) image: a size and a total pixel
lookup, standing for PIL's `im.size` / `im.getpixel`. -/
structure QImage where
  w : ℕ
  h : ℕ
  pixel : ℕ → ℕ → RawColor

/-- The 8 fixed perimeter points: four corners and the four edge
midpoints, with Python integer division for the midpoints. -/
def borderPoints (im : QImage) : List (ℕ × ℕ) :=
  [(0, 0), (0, im.h / 2), (0, im.h - 1), (im.w / 2, im.h - 1),
   (im.w - 1, im.h - 1), (im.w - 1, im.h / 2), (im.w - 1, 0), (im.w / 2, 0)]

/-- The raw pixel values at the 8 perimeter points. -/
def borderSamples (im : QImage) : List RawColor :=
  (borderPoints im).map (fun p => im.pixel p.1 p.2)

/-- `detect_background`.  `none` models a raised exception: indexing
`colors[0]` on an empty list, `to_canonical[majority_col]` on a missing
key, or the 1-tuple unpacking `bg_color, = [...]` finding zero or several
matches. -/
def detect_background (im : QImage) (colors : List Color)
    (to_canonical : List (RawColor × RawColor)) :
    Option (List Color × Option Color) :=
  match colors with
  | [] => none
  | c0 :: rest =>
    -- more then half the image means background
    if BACKGROUND_PROMINENCE ≤ c0.prominence then
      some (rest, some c0)
    else
      -- work out the background color
      let mc := mostCommon (borderSamples im)
      if 3 ≤ mc.2 then
        match List.lookup mc.1 to_canonical with
        | none => none
        | some canonical_bg =>
          match (c0 :: rest).filter (fun c => c.value == canonical_bg) with
          | [bg_color] =>
            some ((c0 :: rest).filter (fun c => c.value != canonical_bg),
                  some bg_color)
          | _ => none
      else
        some (c0 :: rest, none)

/-- Build the ranked color list: one `Color` per aggregated entry with
prominence `count / n_pixels`, stably sorted by descending prominence. -/
def rankByProminence (aggr : List (RawColor × ℕ)) (nPixels : ℚ) :
    List Color :=
  (aggr.map (fun p => Color.mk p.1 ((p.2 : ℚ) / nPixels))).insertionSort
    (fun a b => b.prominence ≤ a.prominence)

/-- The saturation-filter stage on the foreground list: keep the colors
meeting the minimum saturation; if none do, keep at least one color
(`colors[:1]`). -/
def satStage (colors : List Color) (min_saturation : ℚ) : List Color :=
  let sat_colors := colors.filter (fun c => meets_min_saturation c min_saturation)
  if sat_colors.isEmpty then colors.take 1 else sat_colors

/-- The saturation check on the detected background: drop it unless it
meets the minimum saturation. -/
def bgSatFilter (bg : Option Color) (min_saturation : ℚ) : Option Color :=
  match bg with
  | some b => if meets_min_saturation b min_saturation then some b else none
  | none => none

/-- The prominence/count filter: keep colors within `min_prominence` of the
top color's prominence, then truncate to `max_colors`.  On an empty list
the comprehension never evaluates `colors[0]` and yields `[]`. -/
def promCountFilter (colors : List Color) (min_prominence : ℚ)
    (max_colors : ℕ) : List Color :=
  match colors with
  | [] => []
  | c0 :: rest =>
    ((c0 :: rest).filter
      (fun c => decide (c0.prominence * min_prominence ≤ c.prominence))).take
      max_colors

/-- The final count-dependent truncation and hex rendering:
`[rgb_to_hex(c.value) for c in palette.colors[:(5, 3)[len(palette.colors) < 5]]]`. -/
def paletteOutput (colors : List Color) : List String :=
  (colors.take (if colors.length < 5 then 3 else 5)).map
    (fun c => rgb_to_hex c.value)

/-- `im.getdata()`: the pixels in row-major order. -/
def imageData (im : QImage) : List RawColor :=
  (List.range im.h).flatMap (fun y => (List.range im.w).map (fun x => im.pixel x y))

/-- `Counter(data)`: multiplicity of each value, keyed in first-occurrence
order (the deterministic stand-in for Python 2 dict order). -/
def counterOf (data : List RawColor) : List (RawColor × ℕ) :=
  data.foldl
    (fun acc v =>
      if (acc.map Prod.fst).contains v then addCount acc v 1 else acc ++ [(v, 1)])
    []

/-- The pipeline from the quantized image to the `Palette` of source line
162: histogram, aggregation, prominence ranking, background detection,
saturation filter, prominence/count filter.  The distance function is the
abstract stand-in for the external CMC delta-E.  `none` models an
exception raised inside `detect_background`. -/
def extractPalette (d : RawColor → RawColor → ℚ) (im : QImage)
    (min_saturation min_distance : ℚ) (max_colors : ℕ)
    (min_prominence : ℚ) : Option Palette :=
  let dist := counterOf (imageData im)
  let n_pixels : ℚ := (im.w * im.h : ℕ)
  let (aggregated, to_canonical) := aggregate d min_distance dist
  let colors := rankByProminence aggregated n_pixels
  match detect_background im colors to_canonical with
  | none => none
  | some (colors1, bg_color) =>
    let colors2 := satStage colors1 min_saturation
    let bg1 := bgSatFilter bg_color min_saturation
    let colors3 := promCountFilter colors2 min_prominence max_colors
    some (Palette.mk colors3 bg1)

/-- `extract_colors` from the quantized image onward: the palette stage
followed by the final truncation to hex strings. -/
def extract_colors (d : RawColor → RawColor → ℚ) (im : QImage)
    (min_saturation min_distance : ℚ) (max_colors : ℕ)
    (min_prominence : ℚ) : Option (List String) :=
  (extractPalette d im min_saturation min_distance max_colors
    min_prominence).map (fun p => paletteOutput p.colors)

/-- Stand-in for the external CMC distance in concrete runs: distinct
colors are far apart.  (The CMC delta-E between red and either sentinel
is well above `MIN_DISTANCE`, so this reproduces the aggregation
behaviour of the real distance on those inputs.) -/
def dFar : RawColor → RawColor → ℚ := fun a b => if a == b then 0 else 100

/-- A 1x1 image that is a single solid red pixel. -/
def solidRed : QImage := ⟨1, 1, fun _ _ => (255, 0, 0)⟩

/-- A distance depending only on the red channel, used to exhibit an
exact tie between two canonical colors. -/
def dRedChannel : RawColor → RawColor → ℚ :=
  fun a b => ((max a.1 b.1 - min a.1 b.1 : ℕ) : ℚ)

/-- C1: when the most prominent color's prominence is at least
`BACKGROUND_PROMINENCE`, `detect_background` returns it as the background
and the remaining ranked list as the foreground, and the image (hence its
border pixels) plays no role in the result. -/
theorem claim_C1_dominant_background (im im' : QImage) (c0 : Color)
    (rest : List Color) (tc : List (RawColor × RawColor))
    (h : BACKGROUND_PROMINENCE ≤ c0.prominence) :
    detect_background im (c0 :: rest) tc = some (rest, some c0) ∧
    detect_background im' (c0 :: rest) tc = detect_background im (c0 :: rest) tc := by
  constructor
  · simp [detect_background, h]
  · simp [detect_background, h]

/-- Witness for C1 at a concrete ranked list and two distinct images. -/
theorem claim_C1_witness :
    detect_background ⟨1, 1, fun _ _ => (0, 0, 0)⟩ [⟨(3, 4, 5), 1⟩] [] =
      some ([], some ⟨(3, 4, 5), 1⟩) :=
  (claim_C1_dominant_background ⟨1, 1, fun _ _ => (0, 0, 0)⟩
    ⟨2, 2, fun _ _ => (9, 9, 9)⟩ ⟨(3, 4, 5), 1⟩ [] []
    (by norm_num [BACKGROUND_PROMINENCE])).1

/-- C3: if no foreground color exceeds the saturation threshold, the
saturation stage keeps exactly the single most prominent color (the head
of the list); and on any non-empty list the stage never returns an empty
list. -/
theorem claim_C3_saturation_fallback (min_saturation : ℚ) (c0 : Color)
    (rest : List Color)
    (hall : ∀ c ∈ c0 :: rest, meets_min_saturation c min_saturation = false) :
    satStage (c0 :: rest) min_saturation = [c0] ∧
    ∀ (colors : List Color), colors ≠ [] → satStage colors min_saturation ≠ [] := by
  constructor
  · have hfilter : (c0 :: rest).filter
        (fun c => meets_min_saturation c min_saturation) = [] := by
      rw [List.filter_eq_nil_iff]
      intro c hc
      simp [hall c hc]
    simp [satStage, hfilter]
  · intro colors hne
    unfold satStage
    cases hf : colors.filter (fun c => meets_min_saturation c min_saturation) with
    | nil =>
      cases colors with
      | nil => exact absurd rfl hne
      | cons a l => simp
    | cons a l => simp

/-- Witness for C3: a two-color all-gray list keeps only its head. -/
theorem claim_C3_witness :
    satStage [⟨(10, 10, 10), 1⟩, ⟨(0, 0, 0), 0⟩] MIN_SATURATION =
      [⟨(10, 10, 10), 1⟩] :=
  (claim_C3_saturation_fallback MIN_SATURATION ⟨(10, 10, 10), 1⟩ [⟨(0, 0, 0), 0⟩]
    (by
      intro c hc
      simp only [List.mem_cons, List.not_mem_nil, or_false] at hc
      rcases hc with h | h <;>
        (subst h; norm_num [meets_min_saturation, norm_color, hsvSaturation,
          MIN_SATURATION]))).1

/-- C4: the final truncation outputs at most 3 hex strings when the held
foreground list has fewer than 5 colors and at most 5 otherwise; in
particular 4 colors yield at most 3 entries and 6 colors at most 5. -/
theorem claim_C4_output_size (colors : List Color) :
    ((colors.length < 5 → (paletteOutput colors).length ≤ 3) ∧
     (5 ≤ colors.length → (paletteOutput colors).length ≤ 5)) ∧
    (colors.length = 4 → (paletteOutput colors).length ≤ 3) ∧
    (colors.length = 6 → (paletteOutput colors).length ≤ 5) := by
  simp only [paletteOutput, List.length_map, List.length_take]
  refine ⟨⟨?_, ?_⟩, ?_, ?_⟩ <;> (intro h; split <;> omega)

/-- Witness for C4: a 4-color palette renders at most 3 entries. -/
theorem claim_C4_witness :
    (paletteOutput [⟨(0, 0, 1), 1⟩, ⟨(0, 0, 2), 1⟩, ⟨(0, 0, 3), 1⟩,
      ⟨(0, 0, 4), 1⟩]).length ≤ 3 :=
  (claim_C4_output_size _).2.1 rfl

/-- Incrementing a key's count does not change the key list. -/
theorem keys_addCount (l : List (RawColor × ℕ)) (c : RawColor) (n : ℕ) :
    (addCount l c n).map Prod.fst = l.map Prod.fst := by
  induction l with
  | nil => rfl
  | cons p t ih =>
    simp only [addCount, List.map_cons] at ih ⊢
    rw [ih]
    by_cases h : p.1 = c <;> simp [h]

/-- A key present in the aggregation state stays present through any run
of the aggregation loop. -/
theorem mem_keys_foldl_aggregateStep (d : RawColor → RawColor → ℚ) (m : ℚ)
    (c : RawColor) (l : List (RawColor × ℕ)) :
    ∀ st : AggState, c ∈ st.1.map Prod.fst →
      c ∈ (l.foldl (aggregateStep d m) st).1.map Prod.fst := by
  induction l with
  | nil => intro st h; exact h
  | cons e t ih =>
    intro st h
    rw [List.foldl_cons]
    apply ih
    simp only [aggregateStep]
    split
    · simpa [keys_addCount] using h
    · split
      · simpa [keys_addCount] using h
      · simp only [List.map_append]
        exact List.mem_append_left _ h

/-- C6: whatever the input histogram (and whatever the distance function),
the aggregated canonical histogram always contains the white and black
sentinels as keys. -/
theorem claim_C6_sentinels (d : RawColor → RawColor → ℚ) (min_distance : ℚ)
    (hist : List (RawColor × ℕ)) :
    WHITE ∈ (aggregate d min_distance hist).1.map Prod.fst ∧
    BLACK ∈ (aggregate d min_distance hist).1.map Prod.fst := by
  constructor <;>
    (apply mem_keys_foldl_aggregateStep; simp [aggInit])

/-- C10: whenever the pipeline returns a list of hex strings, that list
has at most 5 entries, for every parameter setting (`max_colors`
included). -/
theorem claim_C10_output_cap (d : RawColor → RawColor → ℚ) (im : QImage)
    (min_saturation min_distance : ℚ) (max_colors : ℕ) (min_prominence : ℚ)
    (out : List String)
    (h : extract_colors d im min_saturation min_distance max_colors
      min_prominence = some out) :
    out.length ≤ 5 := by
  unfold extract_colors at h
  cases hp : extractPalette d im min_saturation min_distance max_colors
      min_prominence with
  | none => rw [hp] at h; simp at h
  | some p =>
    rw [hp] at h
    simp only [Option.map_some', Option.some.injEq] at h
    subst h
    simp only [paletteOutput, List.length_map, List.length_take]
    split <;> omega

set_option maxRecDepth 4000 in
/-- Formatting a byte with `'%.02x'` yields exactly two characters, and
parsing them back as a hex pair recovers the byte. -/
theorem fmt02x_roundtrip : ∀ n < 256,
    (fmt02x n).data.length = 2 ∧ parse2 (fmt02x n).data = some n := by
  decide

/-- C5 counterexample: `rgb_to_hex` emits no leading `'#'`, so the literal
composition `hex_to_rgb(rgb_to_hex(c))` trips the `startswith('#')`
assertion instead of returning `c`. -/
theorem claim_C5_counterexample :
    hex_to_rgb (rgb_to_hex (255, 165, 0)) = none ∧
    hex_to_rgb (rgb_to_hex (255, 165, 0)) ≠ some (255, 165, 0) := by
  constructor <;> decide

/-- C5 amended: prepending the `'#'` that `hex_to_rgb` asserts makes the
round trip exact on every RawColor with all channels in `[0, 255]`. -/
theorem claim_C5_roundtrip_amended (r g b : ℕ) (hr : r ≤ 255) (hg : g ≤ 255)
    (hb : b ≤ 255) :
    hex_to_rgb ("#" ++ rgb_to_hex (r, g, b)) = some (r, g, b) := by
  have Hr := fmt02x_roundtrip r (by omega)
  have Hg := fmt02x_roundtrip g (by omega)
  have Hb := fmt02x_roundtrip b (by omega)
  obtain ⟨x1, x2, hx⟩ : ∃ u v, (fmt02x r).data = [u, v] := by
    rcases hd : (fmt02x r).data with _ | ⟨u, _ | ⟨v, _ | _⟩⟩ <;>
      simp_all
  obtain ⟨y1, y2, hy⟩ : ∃ u v, (fmt02x g).data = [u, v] := by
    rcases hd : (fmt02x g).data with _ | ⟨u, _ | ⟨v, _ | _⟩⟩ <;>
      simp_all
  obtain ⟨z1, z2, hz⟩ : ∃ u v, (fmt02x b).data = [u, v] := by
    rcases hd : (fmt02x b).data with _ | ⟨u, _ | ⟨v, _ | _⟩⟩ <;>
      simp_all
  have pr : parseHexPair x1 x2 = some r := by
    have h2 := Hr.2; rw [hx] at h2; exact h2
  have pg : parseHexPair y1 y2 = some g := by
    have h2 := Hg.2; rw [hy] at h2; exact h2
  have pb : parseHexPair z1 z2 = some b := by
    have h2 := Hb.2; rw [hz] at h2; exact h2
  have hdata : ("#" ++ rgb_to_hex (r, g, b)).data =
      '#' :: (((fmt02x r).data ++ (fmt02x g).data) ++ (fmt02x b).data) := rfl
  rw [hx, hy, hz] at hdata
  simp only [hex_to_rgb, hdata, List.cons_append, List.nil_append]
  simp [pr, pg, pb]

/-- Witness for the amended C5 round trip at orange `(255, 165, 0)`. -/
theorem claim_C5_witness :
    hex_to_rgb ("#" ++ rgb_to_hex (255, 165, 0)) = some (255, 165, 0) :=
  claim_C5_roundtrip_amended 255 165 0 (by decide) (by decide) (by decide)

/-- The Python pair comparison is a strict trichotomous order. -/
theorem pairLt_trichotomy (x m : ℚ × RawColor) :
    pairLt x m = true ∨ pairLt m x = true ∨ x = m := by
  obtain ⟨xq, x1, x2, x3⟩ := x
  obtain ⟨mq, m1, m2, m3⟩ := m
  simp only [pairLt, tupLt, decide_eq_true_eq, Prod.mk.injEq]
  rcases lt_trichotomy xq mq with h | h | h
  · exact Or.inl (Or.inl h)
  · subst h
    simp only [lt_self_iff_false, false_or, true_and, and_true]
    omega
  · exact Or.inr (Or.inl (Or.inl h))

/-- The Python pair comparison is transitive. -/
theorem pairLt_trans {a b c : ℚ × RawColor} (h1 : pairLt a b = true)
    (h2 : pairLt b c = true) : pairLt a c = true := by
  obtain ⟨aq, a1, a2, a3⟩ := a
  obtain ⟨bq, b1, b2, b3⟩ := b
  obtain ⟨cq, c1, c2, c3⟩ := c
  simp only [pairLt, tupLt, decide_eq_true_eq] at h1 h2 ⊢
  rcases h1 with h1 | ⟨h1e, h1t⟩ <;> rcases h2 with h2 | ⟨h2e, h2t⟩
  · exact Or.inl (h1.trans h2)
  · exact Or.inl (h2e ▸ h1)
  · exact Or.inl (h1e ▸ h2)
  · subst h1e; subst h2e
    refine Or.inr ⟨rfl, ?_⟩
    omega

/-- Folding the Python `min` step over a list returns an element of the
list (or the seed) that is `pairLt`-minimal among the seed and all
elements. -/
theorem foldl_pyMinStep_spec (l : List (ℚ × RawColor)) :
    ∀ p : ℚ × RawColor,
      (l.foldl pyMinStep p = p ∨ l.foldl pyMinStep p ∈ l) ∧
      ∀ q ∈ p :: l, pairLt (l.foldl pyMinStep p) q = true ∨
        l.foldl pyMinStep p = q := by
  induction l with
  | nil =>
    intro p
    refine ⟨Or.inl rfl, ?_⟩
    intro q hq
    simp only [List.foldl_nil]
    rcases List.mem_cons.mp hq with rfl | hq'
    · exact Or.inr rfl
    · exact absurd hq' (List.not_mem_nil q)
  | cons x t ih =>
    intro p
    rw [List.foldl_cons]
    by_cases hxp : pairLt x p = true
    · have hpx : pyMinStep p x = x := by simp [pyMinStep, hxp]
      rw [hpx]
      obtain ⟨ihmem, ihle⟩ := ih x
      refine ⟨?_, ?_⟩
      · rcases ihmem with h | h
        · right; rw [h]; exact List.mem_cons_self x t
        · exact Or.inr (List.mem_cons_of_mem x h)
      · intro q hq
        rcases List.mem_cons.mp hq with rfl | hq'
        · have hres := ihle x (List.mem_cons_self x t)
          rcases hres with hlt | heq
          · exact Or.inl (pairLt_trans hlt hxp)
          · rw [heq]; exact Or.inl hxp
        · exact ihle q hq'
    · have hpx : pyMinStep p x = p := by simp [pyMinStep, hxp]
      rw [hpx]
      obtain ⟨ihmem, ihle⟩ := ih p
      refine ⟨?_, ?_⟩
      · exact ihmem.imp id (List.mem_cons_of_mem x)
      · intro q hq
        rcases List.mem_cons.mp hq with rfl | hq'
        · exact ihle q (List.mem_cons_self q t)
        rcases List.mem_cons.mp hq' with rfl | hq''
        · have hres := ihle p (List.mem_cons_self p t)
          rcases pairLt_trichotomy q p with h1 | h1 | h1
          · exact absurd h1 hxp
          · rcases hres with hlt | heq2
            · exact Or.inl (pairLt_trans hlt h1)
            · rw [heq2]; exact Or.inl h1
          · rcases hres with hlt | heq2
            · exact Or.inl (h1 ▸ hlt)
            · exact Or.inr (h1 ▸ heq2)
        · exact ihle q (List.mem_cons_of_mem p hq'')

/-- C7 counterexample: with two canonical colors exactly equidistant from
the processed color, the nearest-canonical search returns the
lexicographically smaller color tuple, not the first-encountered
canonical color `(10, 0, 0)`. -/
theorem claim_C7_counterexample :
    dRedChannel (5, 0, 0) (10, 0, 0) = dRedChannel (5, 0, 0) (0, 0, 0) ∧
    (nearestCanonical dRedChannel (5, 0, 0) [(10, 0, 0), (0, 0, 0)]).2 =
      (0, 0, 0) ∧
    (nearestCanonical dRedChannel (5, 0, 0) [(10, 0, 0), (0, 0, 0)]).2 ≠
      (10, 0, 0) := by
  refine ⟨by norm_num [dRedChannel], ?_, ?_⟩ <;>
    (norm_num [nearestCanonical, pyMinStep, pairLt, tupLt, dRedChannel];
      try decide)

/-- C7 amended: the nearest-canonical search returns a canonical color at
minimal distance, and among equidistant canonical colors it returns the
one with the lexicographically smallest tuple (Python compares the
`(distance, color)` pairs), regardless of encounter order. -/
theorem claim_C7_amended (d : RawColor → RawColor → ℚ) (c : RawColor)
    (keys : List RawColor) (hne : keys ≠ []) :
    (nearestCanonical d c keys).2 ∈ keys ∧
    (nearestCanonical d c keys).1 = d c (nearestCanonical d c keys).2 ∧
    (∀ k ∈ keys, (nearestCanonical d c keys).1 ≤ d c k) ∧
    (∀ k ∈ keys, d c k = (nearestCanonical d c keys).1 →
      tupLt (nearestCanonical d c keys).2 k = true ∨
        (nearestCanonical d c keys).2 = k) := by
  cases keys with
  | nil => exact absurd rfl hne
  | cons k0 ks =>
    have hnc : nearestCanonical d c (k0 :: ks) =
        (ks.map (fun k => (d c k, k))).foldl pyMinStep (d c k0, k0) := by
      simp [nearestCanonical]
    obtain ⟨hmem, hle⟩ := foldl_pyMinStep_spec (ks.map (fun k => (d c k, k)))
      (d c k0, k0)
    rw [← hnc] at hmem hle
    have hform : ∃ k ∈ k0 :: ks, nearestCanonical d c (k0 :: ks) = (d c k, k) := by
      rcases hmem with h | h
      · exact ⟨k0, List.mem_cons_self k0 ks, h⟩
      · obtain ⟨k, hk, hkeq⟩ := List.mem_map.mp h
        exact ⟨k, List.mem_cons_of_mem k0 hk, hkeq.symm⟩
    obtain ⟨kr, hkr, hreq⟩ := hform
    have hpair : ∀ k ∈ k0 :: ks,
        pairLt (nearestCanonical d c (k0 :: ks)) (d c k, k) = true ∨
          nearestCanonical d c (k0 :: ks) = (d c k, k) := by
      intro k hk
      rcases List.mem_cons.mp hk with rfl | hk'
      · exact hle (d c k, k) (List.mem_cons_self _ _)
      · exact hle (d c k, k)
          (List.mem_cons_of_mem _ (List.mem_map.mpr ⟨k, hk', rfl⟩))
    refine ⟨?_, ?_, ?_, ?_⟩
    · rw [hreq]; exact hkr
    · rw [hreq]
    · intro k hk
      rcases hpair k hk with hlt | heq
      · rw [pairLt] at hlt
        simp only [decide_eq_true_eq] at hlt
        rcases hlt with h | ⟨he, _⟩
        · exact le_of_lt h
        · exact le_of_eq he
      · rw [heq]
    · intro k hk htie
      rcases hpair k hk with hlt | heq
      · rw [pairLt] at hlt
        simp only [decide_eq_true_eq] at hlt
        rcases hlt with h | ⟨_, ht⟩
        · exact absurd (htie ▸ h) (lt_irrefl _)
        · exact Or.inl ht
      · right; rw [heq]

/-- Witness for the amended C7 at the concrete equidistant pair. -/
theorem claim_C7_witness :
    (nearestCanonical dRedChannel (5, 0, 0) [(10, 0, 0), (0, 0, 0)]).2 ∈
      [((10, 0, 0) : RawColor), (0, 0, 0)] ∧
    ∀ k ∈ [((10, 0, 0) : RawColor), (0, 0, 0)],
      (nearestCanonical dRedChannel (5, 0, 0) [(10, 0, 0), (0, 0, 0)]).1 ≤
        dRedChannel (5, 0, 0) k :=
  ⟨(claim_C7_amended dRedChannel (5, 0, 0) [(10, 0, 0), (0, 0, 0)]
      (by simp)).1,
   (claim_C7_amended dRedChannel (5, 0, 0) [(10, 0, 0), (0, 0, 0)]
      (by simp)).2.2.1⟩

/-- Folding the Python `max` step over counted values returns an element
of the list (or the seed) whose count dominates the seed and every
element. -/
theorem foldl_pyMaxStep_spec (l : List (RawColor × ℕ)) :
    ∀ p : RawColor × ℕ,
      (l.foldl pyMaxStep p = p ∨ l.foldl pyMaxStep p ∈ l) ∧
      ∀ q ∈ p :: l, q.2 ≤ (l.foldl pyMaxStep p).2 := by
  induction l with
  | nil =>
    intro p
    refine ⟨Or.inl rfl, ?_⟩
    intro q hq
    rcases List.mem_cons.mp hq with rfl | hq'
    · exact le_refl _
    · exact absurd hq' (List.not_mem_nil q)
  | cons x t ih =>
    intro p
    rw [List.foldl_cons]
    by_cases hpx : p.2 < x.2
    · have hstep : pyMaxStep p x = x := by simp [pyMaxStep, hpx]
      rw [hstep]
      obtain ⟨ihmem, ihle⟩ := ih x
      refine ⟨?_, ?_⟩
      · rcases ihmem with h | h
        · right; rw [h]; exact List.mem_cons_self x t
        · exact Or.inr (List.mem_cons_of_mem x h)
      · intro q hq
        rcases List.mem_cons.mp hq with rfl | hq'
        · exact le_of_lt (lt_of_lt_of_le hpx (ihle x (List.mem_cons_self x t)))
        · exact ihle q hq'
    · have hstep : pyMaxStep p x = p := by simp [pyMaxStep, hpx]
      rw [hstep]
      obtain ⟨ihmem, ihle⟩ := ih p
      refine ⟨?_, ?_⟩
      · exact ihmem.imp id (List.mem_cons_of_mem x)
      · intro q hq
        rcases List.mem_cons.mp hq with rfl | hq'
        · exact ihle q (List.mem_cons_self q t)
        rcases List.mem_cons.mp hq' with rfl | hq''
        · exact le_trans (not_lt.mp hpx) (ihle p (List.mem_cons_self p t))
        · exact ihle q (List.mem_cons_of_mem p hq'')

/-- On a non-empty sample list, `mostCommon` returns a sampled value
together with its exact multiplicity. -/
theorem mostCommon_mem_count (l : List RawColor) (hne : l ≠ []) :
    (mostCommon l).1 ∈ l ∧ l.count (mostCommon l).1 = (mostCommon l).2 := by
  cases hd : l.dedup with
  | nil => exact absurd ((List.dedup_eq_nil l).mp hd) hne
  | cons w ws =>
    have hmc : mostCommon l = (ws.map (fun v => (v, l.count v))).foldl
        pyMaxStep (w, l.count w) := by
      simp [mostCommon, hd]
    obtain ⟨hmem, _⟩ := foldl_pyMaxStep_spec
      (ws.map (fun v => (v, l.count v))) (w, l.count w)
    rw [← hmc] at hmem
    have hform : ∃ u, u ∈ l.dedup ∧ mostCommon l = (u, l.count u) := by
      rcases hmem with h | h
      · exact ⟨w, by rw [hd]; exact List.mem_cons_self w ws, h⟩
      · obtain ⟨u, hu, hueq⟩ := List.mem_map.mp h
        exact ⟨u, by rw [hd]; exact List.mem_cons_of_mem w hu, hueq.symm⟩
    obtain ⟨u, hu, hueq⟩ := hform
    rw [hueq]
    exact ⟨List.mem_dedup.mp hu, rfl⟩

/-- The count returned by `mostCommon` dominates the multiplicity of every
value. -/
theorem mostCommon_max (l : List RawColor) (v : RawColor) :
    l.count v ≤ (mostCommon l).2 := by
  by_cases hv : v ∈ l
  · cases hd : l.dedup with
    | nil =>
      exact absurd hv (by simp [(List.dedup_eq_nil l).mp hd])
    | cons w ws =>
      have hmc : mostCommon l = (ws.map (fun x => (x, l.count x))).foldl
          pyMaxStep (w, l.count w) := by
        simp [mostCommon, hd]
      obtain ⟨_, hle⟩ := foldl_pyMaxStep_spec
        (ws.map (fun x => (x, l.count x))) (w, l.count w)
      rw [← hmc] at hle
      have hvd : v ∈ l.dedup := List.mem_dedup.mpr hv
      rw [hd] at hvd
      rcases List.mem_cons.mp hvd with rfl | hv'
      · exact hle (v, l.count v) (List.mem_cons_self _ _)
      · exact hle (v, l.count v)
          (List.mem_cons_of_mem _ (List.mem_map.mpr ⟨v, hv', rfl⟩))
  · rw [List.count_eq_zero_of_not_mem hv]
    exact Nat.zero_le _

/-- C2: when the dominant-fill branch does not trigger, exactly 8 fixed
perimeter points are sampled; if some raw sampled value reaches 3 of the
8 samples, the canonical image of the (most common) majority value is
removed from the foreground and returned as the background, and otherwise
the background is `None` with the foreground unchanged. -/
theorem claim_C2_border_background (im : QImage) (c0 : Color)
    (rest : List Color) (tc : List (RawColor × RawColor)) (cb : RawColor)
    (bg : Color) (hprom : c0.prominence < BACKGROUND_PROMINENCE) :
    (borderSamples im).length = 8 ∧
    ((∃ v, 3 ≤ (borderSamples im).count v) ↔
      3 ≤ (mostCommon (borderSamples im)).2) ∧
    (3 ≤ (mostCommon (borderSamples im)).2 →
      List.lookup (mostCommon (borderSamples im)).1 tc = some cb →
      (c0 :: rest).filter (fun c => c.value == cb) = [bg] →
      3 ≤ (borderSamples im).count (mostCommon (borderSamples im)).1 ∧
      detect_background im (c0 :: rest) tc =
        some ((c0 :: rest).filter (fun c => c.value != cb), some bg)) ∧
    ((mostCommon (borderSamples im)).2 < 3 →
      detect_background im (c0 :: rest) tc = some (c0 :: rest, none)) := by
  have hlen : (borderSamples im).length = 8 := by
    simp [borderSamples, borderPoints]
  have hne : borderSamples im ≠ [] := by
    intro h
    rw [h] at hlen
    simp at hlen
  refine ⟨hlen, ?_, ?_, ?_⟩
  · constructor
    · rintro ⟨v, hv⟩
      exact le_trans hv (mostCommon_max (borderSamples im) v)
    · intro h3
      refine ⟨(mostCommon (borderSamples im)).1, ?_⟩
      rw [(mostCommon_mem_count (borderSamples im) hne).2]
      exact h3
  · intro h3 hlk hfil
    refine ⟨?_, ?_⟩
    · rw [(mostCommon_mem_count (borderSamples im) hne).2]
      exact h3
    · simp only [detect_background]
      rw [if_neg (not_le.mpr hprom), if_pos h3, hlk]
      simp only [hfil]
  · intro h3
    simp only [detect_background]
    rw [if_neg (not_le.mpr hprom), if_neg (not_le.mpr h3)]

/-- Witness for C2 on a 3x3 image uniformly colored `(7, 7, 7)` with a
two-color foreground list. -/
theorem claim_C2_witness :
    detect_background ⟨3, 3, fun _ _ => (7, 7, 7)⟩
      [⟨(1, 1, 2), 0⟩, ⟨(7, 7, 7), 0⟩] [((7, 7, 7), (7, 7, 7))] =
      some ([⟨(1, 1, 2), 0⟩], some ⟨(7, 7, 7), 0⟩) := by
  have h := (claim_C2_border_background ⟨3, 3, fun _ _ => (7, 7, 7)⟩
    ⟨(1, 1, 2), 0⟩ [⟨(7, 7, 7), 0⟩] [((7, 7, 7), (7, 7, 7))] (7, 7, 7)
    ⟨(7, 7, 7), 0⟩
    (by norm_num [BACKGROUND_PROMINENCE])).2.2.1
    (by decide) (by decide) (by decide)
  rw [h.2]
  decide

/-- Aggregating the solid-red histogram promotes red to a third canonical
color whenever red is at least `MIN_DISTANCE` away from both sentinels
(as it is under the real CMC distance). -/
theorem aggregate_solidRed (d : RawColor → RawColor → ℚ)
    (hW : ¬ d (255, 0, 0) WHITE < MIN_DISTANCE)
    (hB : ¬ d (255, 0, 0) BLACK < MIN_DISTANCE) :
    aggregate d MIN_DISTANCE [((255, 0, 0), 1)] =
      ([(WHITE, 0), (BLACK, 0), ((255, 0, 0), 1)],
       [(WHITE, WHITE), (BLACK, BLACK), ((255, 0, 0), (255, 0, 0))]) := by
  have hsort : sortByCountDesc [((255, 0, 0), 1)] = [((255, 0, 0), 1)] := by
    simp [sortByCountDesc, List.insertionSort]
  rw [aggregate, hsort, List.foldl_cons, List.foldl_nil]
  have hkeys : aggInit.1.map Prod.fst = [WHITE, BLACK] := by decide
  have hnc : nearestCanonical d (255, 0, 0) [WHITE, BLACK] =
      pyMinStep (d (255, 0, 0) WHITE, WHITE) (d (255, 0, 0) BLACK, BLACK) := by
    simp [nearestCanonical]
  have hcont : ((aggInit.1.map Prod.fst).contains ((255 : ℕ), (0 : ℕ), (0 : ℕ)))
      = false := by decide
  simp only [aggregateStep, hkeys, hcont, Bool.false_eq_true, if_false, hnc]
  by_cases hpl : pairLt (d (255, 0, 0) BLACK, BLACK)
      (d (255, 0, 0) WHITE, WHITE) = true
  · simp only [pyMinStep, hpl, if_true, hB, if_false]
    simp [aggInit]
    decide
  · simp only [pyMinStep, hpl, Bool.false_eq_true, if_false, hW]
    simp [aggInit]
    decide

/-- The whole pipeline on the 1x1 solid red image, for any distance that
keeps red at least `MIN_DISTANCE` from both sentinels: the background is
red at prominence 1, the foreground retains the white sentinel at
prominence 0, and the output is `["ffffff"]`. -/
theorem solidRed_pipeline (d : RawColor → RawColor → ℚ)
    (hW : ¬ d (255, 0, 0) WHITE < MIN_DISTANCE)
    (hB : ¬ d (255, 0, 0) BLACK < MIN_DISTANCE) :
    extractPalette d solidRed MIN_SATURATION MIN_DISTANCE MAX_COLORS
      MIN_PROMINENCE = some ⟨[⟨WHITE, 0⟩], some ⟨(255, 0, 0), 1⟩⟩ ∧
    extract_colors d solidRed MIN_SATURATION MIN_DISTANCE MAX_COLORS
      MIN_PROMINENCE = some ["ffffff"] := by
  have h1 : counterOf (imageData solidRed) = [((255, 0, 0), 1)] := by
    norm_num [counterOf, imageData, solidRed, addCount, List.range_succ]
  have h2 := aggregate_solidRed d hW hB
  have h3 : rankByProminence [(WHITE, 0), (BLACK, 0), ((255, 0, 0), 1)]
      ((solidRed.w * solidRed.h : ℕ) : ℚ) =
      [⟨(255, 0, 0), 1⟩, ⟨WHITE, 0⟩, ⟨BLACK, 0⟩] := by
    norm_num [rankByProminence, List.insertionSort, List.orderedInsert,
      solidRed, WHITE, BLACK]
  have h4 : detect_background solidRed
      [⟨(255, 0, 0), 1⟩, ⟨WHITE, 0⟩, ⟨BLACK, 0⟩]
      [(WHITE, WHITE), (BLACK, BLACK), ((255, 0, 0), (255, 0, 0))] =
      some ([⟨WHITE, 0⟩, ⟨BLACK, 0⟩], some ⟨(255, 0, 0), 1⟩) := by
    norm_num [detect_background, BACKGROUND_PROMINENCE]
  have h5 : satStage [⟨WHITE, 0⟩, ⟨BLACK, 0⟩] MIN_SATURATION = [⟨WHITE, 0⟩] := by
    norm_num [satStage, meets_min_saturation, norm_color, hsvSaturation,
      MIN_SATURATION, WHITE, BLACK, List.filter]
  have h6 : bgSatFilter (some ⟨(255, 0, 0), 1⟩) MIN_SATURATION =
      some ⟨(255, 0, 0), 1⟩ := by
    norm_num [bgSatFilter, meets_min_saturation, norm_color, hsvSaturation,
      MIN_SATURATION]
  have h7 : promCountFilter [⟨WHITE, 0⟩] MIN_PROMINENCE MAX_COLORS =
      [⟨WHITE, 0⟩] := by
    norm_num [promCountFilter, MIN_PROMINENCE, MAX_COLORS, List.filter]
  have hpal : extractPalette d solidRed MIN_SATURATION MIN_DISTANCE MAX_COLORS
      MIN_PROMINENCE = some ⟨[⟨WHITE, 0⟩], some ⟨(255, 0, 0), 1⟩⟩ := by
    simp only [extractPalette, h1, h2, h3]
    rw [h4]
    simp only [h5, h7]
    simp [h6]
    norm_num [bgSatFilter, meets_min_saturation, norm_color, hsvSaturation,
      MIN_SATURATION]
  have hout : paletteOutput [⟨WHITE, 0⟩] = ["ffffff"] := by
    have hw : rgb_to_hex WHITE = "ffffff" := by decide
    simp [paletteOutput, hw]
  refine ⟨hpal, ?_⟩
  rw [extract_colors, hpal]
  simp [hout]

/-- C8 counterexample: on the solid red image the pipeline does not return
the empty sequence — the zero-prominence white sentinel survives the
saturation fallback and is emitted as `"ffffff"`. -/
theorem claim_C8_counterexample :
    extract_colors dFar solidRed MIN_SATURATION MIN_DISTANCE MAX_COLORS
      MIN_PROMINENCE = some ["ffffff"] ∧
    extract_colors dFar solidRed MIN_SATURATION MIN_DISTANCE MAX_COLORS
      MIN_PROMINENCE ≠ some [] := by
  have h := (solidRed_pipeline dFar
    (by decide)
    (by decide)).2
  refine ⟨h, ?_⟩
  rw [h]
  simp

/-- C8 amended: on a solid red image the background is red (prominence 1),
but the foreground is not empty — it retains the zero-prominence white
sentinel after the saturation fallback — and the returned sequence is
`["ffffff"]`, not the empty sequence.  This holds for every distance
function that keeps red at least `MIN_DISTANCE` from both sentinels, as
the real CMC delta-E does. -/
theorem claim_C8_amended (d : RawColor → RawColor → ℚ)
    (hW : ¬ d (255, 0, 0) WHITE < MIN_DISTANCE)
    (hB : ¬ d (255, 0, 0) BLACK < MIN_DISTANCE) :
    extractPalette d solidRed MIN_SATURATION MIN_DISTANCE MAX_COLORS
      MIN_PROMINENCE = some ⟨[⟨WHITE, 0⟩], some ⟨(255, 0, 0), 1⟩⟩ ∧
    extract_colors d solidRed MIN_SATURATION MIN_DISTANCE MAX_COLORS
      MIN_PROMINENCE = some ["ffffff"] :=
  solidRed_pipeline d hW hB

/-- Witness for the amended C8 with the far-apart stand-in distance. -/
theorem claim_C8_witness :
    extractPalette dFar solidRed MIN_SATURATION MIN_DISTANCE MAX_COLORS
      MIN_PROMINENCE = some ⟨[⟨WHITE, 0⟩], some ⟨(255, 0, 0), 1⟩⟩ :=
  (claim_C8_amended dFar
    (by decide)
    (by decide)).1

/-- Witness for C10: the concrete solid-red run returns one hex string,
within the cap of 5. -/
theorem claim_C10_witness :
    (["ffffff"] : List String).length ≤ 5 :=
  claim_C10_output_cap dFar solidRed MIN_SATURATION MIN_DISTANCE MAX_COLORS
    MIN_PROMINENCE ["ffffff"]
    (solidRed_pipeline dFar
      (by decide)
      (by decide)).2
